import Mathlib

/-!
Shallow embedding of `src/human_agent_fallback.py` (the human-agent
escalation and assignment engine of the Multilingual-AI repository).

Modelling conventions:
* Python `datetime` clocks are passed in as explicit string parameters
  (`clockSeconds` for the `%Y%m%d%H%M%S`-formatted id timestamp,
  `clockIso` for ISO timestamps stored in records).
* Python mutable object identity is modelled by updating list entries
  keyed by the record's `id` field; the initial roster has pairwise
  distinct agent ids and no operation ever creates or renames agents,
  so this is faithful (the distinctness is carried as an invariant
  where a proof needs it).
* Python floats appear only in the matcher score (an integer plus a
  multiple of 0.5, exactly representable) and in the wait-time
  arithmetic; both are modelled with `ℚ` / `ℕ` arithmetic, which agrees
  with the float computation on all values considered here.
* `EscalatedQuery.language` models the *dynamically added* Python
  attribute: `none` corresponds to `hasattr(query, 'language')` being
  false (the dataclass declares no such field), `some l` to the
  attribute being present with value `l`.
-/

namespace HumanFallback

/-- `class QueryComplexity(Enum)` from the source. -/
inductive QueryComplexity where
  | simple
  | moderate
  | complex
  | critical
deriving DecidableEq, Repr

/-- `class AgentStatus(Enum)` from the source. -/
inductive AgentStatus where
  | available
  | busy
  | offline
  | breakTime
deriving DecidableEq, Repr

/-- `class EscalationReason(Enum)` from the source. -/
inductive EscalationReason where
  | technical_issue
  | complex_query
  | customer_complaint
  | price_negotiation
  | custom_requirements
  | language_barrier
  | emergency
deriving DecidableEq, Repr

/-- `EscalationReason.value`: the string value of each enum member. -/
def EscalationReason.value : EscalationReason → String
  | .technical_issue => "technical_issue"
  | .complex_query => "complex_query"
  | .customer_complaint => "customer_complaint"
  | .price_negotiation => "price_negotiation"
  | .custom_requirements => "custom_requirements"
  | .language_barrier => "language_barrier"
  | .emergency => "emergency"

/-- `@dataclass class HumanAgent` from the source. -/
structure HumanAgent where
  id : String
  name : String
  email : String
  phone : String
  expertise : List String
  languages : List String
  status : AgentStatus := .available
  current_chats : Int := 0
  max_chats : Int := 5
  last_activity : String := ""
deriving DecidableEq, Repr

/-- `@dataclass class EscalatedQuery` from the source.  The `language`
field models the dynamically added Python attribute (see module
comment); the dataclass itself declares no `language` field. -/
structure EscalatedQuery where
  id : String
  customer_id : String
  query : String
  complexity : QueryComplexity
  reason : EscalationReason
  agent_id : String := ""
  status : String := "pending"
  created_time : String := ""
  assigned_time : String := ""
  resolved_time : String := ""
  priority : Int := 1
  notes : String := ""
  language : Option String := none
deriving DecidableEq, Repr

/-- The mutable state of a `HumanAgentFallback` instance: its agent
roster and its list of escalated queries. -/
structure FallbackState where
  agents : List HumanAgent
  escalated_queries : List EscalatedQuery
deriving DecidableEq, Repr

/-- `initialize_agents` from the source: the static four-agent roster.
`t0` stands for the `datetime.now().isoformat()` value filled in by
`__post_init__` for `last_activity`. -/
def initialize_agents (t0 : String) : List HumanAgent :=
  [ { id := "agent_1", name := "Rajesh Kumar",
      email := "rajesh@everylingua.com", phone := "+91-9876543211",
      expertise := ["sales", "test_rides", "finance"],
      languages := ["hi", "en", "mr"], max_chats := 5,
      last_activity := t0 },
    { id := "agent_2", name := "Priya Sharma",
      email := "priya@everylingua.com", phone := "+91-9876543212",
      expertise := ["service", "maintenance", "complaints"],
      languages := ["en", "hi", "ta"], max_chats := 4,
      last_activity := t0 },
    { id := "agent_3", name := "Amit Patel",
      email := "amit@everylingua.com", phone := "+91-9876543213",
      expertise := ["sales", "custom_requirements", "price_negotiation"],
      languages := ["en", "hi", "gu"], max_chats := 6,
      last_activity := t0 },
    { id := "agent_4", name := "Sneha Reddy",
      email := "sneha@everylingua.com", phone := "+91-9876543214",
      expertise := ["service", "emergency", "complaints"],
      languages := ["en", "hi", "te", "kn"], max_chats := 4,
      last_activity := t0 } ]

/-- `HumanAgentFallback.__init__`: empty queue, static roster. -/
def initialState (t0 : String) : FallbackState :=
  { agents := initialize_agents t0, escalated_queries := [] }

/-! ### Escalation classifier (`should_escalate_to_human`) -/

/-- Python's substring test `needle in hay` on lists of characters. -/
def hasSub (hay needle : List Char) : Bool :=
  match hay with
  | [] => needle.isEmpty
  | _ :: t => needle.isPrefixOf hay || hasSub t needle

/-- Python's `keyword in query` where both are strings. -/
def strContains (hay needle : String) : Bool :=
  hasSub hay.data needle.data

/-- Python's `str.lower()` (ASCII-sufficient for the source's uses),
implemented over the character list. -/
def lowerStr (s : String) : String := ⟨s.data.map Char.toLower⟩

/-- Python's `str.split(sep)` on the character list: split at every
occurrence of `sep` (`"price_negotiation".split('_')` =
`["price", "negotiation"]`). -/
def splitChar (sep : Char) : List Char → List (List Char)
  | [] => [[]]
  | c :: t =>
    match splitChar sep t with
    | [] => [[]]
    | h :: r => if c == sep then [] :: h :: r else (c :: h) :: r

/-- Python's `str.split(sep)` returning strings. -/
def splitStr (sep : Char) (s : String) : List String :=
  (splitChar sep s.data).map (fun l => ⟨l⟩)

/-- The `escalation_keywords` list from `should_escalate_to_human`. -/
def escalation_keywords : List String :=
  ["speak to human", "talk to agent", "customer service", "complaint",
   "not satisfied", "wrong information", "confused", "help me",
   "emergency", "urgent", "problem", "issue", "broken", "not working"]

/-- The `financial_keywords` list from `should_escalate_to_human`. -/
def financial_keywords : List String :=
  ["negotiate", "discount", "bargain", "lower price", "best price",
   "offer", "deal", "finance", "loan", "emi", "installment"]

/-- The `custom_keywords` list from `should_escalate_to_human`. -/
def custom_keywords : List String :=
  ["custom", "modify", "special", "specific", "particular",
   "requirement", "need", "want", "looking for", "prefer"]

/-- The `technical_keywords` list from `should_escalate_to_human`. -/
def technical_keywords : List String :=
  ["not working", "broken", "error", "problem", "issue",
   "malfunction", "defect", "damage", "repair", "fix"]

/-- The `emergency_keywords` list from `should_escalate_to_human`. -/
def emergency_keywords : List String :=
  ["emergency", "urgent", "immediately", "asap", "help",
   "accident", "stuck", "stranded", "danger", "safety"]

/-- `self.complexity_thresholds["confidence_threshold"]` (0.7). -/
def confidence_threshold : ℚ := 7 / 10

/-- `self.complexity_thresholds["response_time_threshold"]` (30 s). -/
def response_time_threshold : ℚ := 30

/-- `HumanAgentFallback.should_escalate_to_human` from the source:
keyword rule groups checked in program order (complaint, financial,
custom, technical), then the confidence and latency thresholds, then
the emergency keywords.  Python returns `(False, None)` when no rule
fires; the reason is therefore an `Option`. -/
def should_escalate_to_human (query : String) (ai_response : String := "")
    (confidence : ℚ := 0) (response_time : ℚ := 0) :
    Bool × Option EscalationReason :=
  let ql := lowerStr query
  let _ := ai_response
  if escalation_keywords.any (fun k => strContains ql k) then
    (true, some .customer_complaint)
  else if financial_keywords.any (fun k => strContains ql k) then
    (true, some .price_negotiation)
  else if custom_keywords.any (fun k => strContains ql k) then
    (true, some .custom_requirements)
  else if technical_keywords.any (fun k => strContains ql k) then
    (true, some .technical_issue)
  else if confidence < confidence_threshold then
    (true, some .complex_query)
  else if response_time > response_time_threshold then
    (true, some .complex_query)
  else if emergency_keywords.any (fun k => strContains ql k) then
    (true, some .emergency)
  else
    (false, none)

/-! ### Matcher (`find_best_agent`) -/

/-- The availability filter at the top of `find_best_agent`:
`agent.status == AgentStatus.AVAILABLE and agent.current_chats < agent.max_chats`. -/
def isAvailableWithCapacity (a : HumanAgent) : Bool :=
  a.status == .available && a.current_chats < a.max_chats

/-- The `available_agents` list computed by `find_best_agent`. -/
def availableAgents (agents : List HumanAgent) : List HumanAgent :=
  agents.filter isAvailableWithCapacity

/-- The per-agent score computed inside `find_best_agent`'s loop:
+2 per word of `query.reason.value.split('_')` found in `expertise`,
+1 when the (dynamically present) query language is in `languages`,
+1 when `priority >= 4`, plus `(max_chats - current_chats) * 0.5`. -/
def agentScore (q : EscalatedQuery) (a : HumanAgent) : ℚ :=
  let s1 : ℚ := (splitStr '_' q.reason.value).foldl
    (fun s w => if a.expertise.contains w then s + 2 else s) 0
  let s2 : ℚ := if (q.language.map (fun l => a.languages.contains l)).getD false
    then s1 + 1 else s1
  let s3 : ℚ := if q.priority ≥ 4 then s2 + 1 else s2
  s3 + ((a.max_chats : ℚ) - (a.current_chats : ℚ)) * (1 / 2)

/-- One step of `find_best_agent`'s best-score loop:
`if score > best_score: best_score, best_agent = score, agent`. -/
def bestStep (q : EscalatedQuery) (acc : Option HumanAgent × ℚ)
    (a : HumanAgent) : Option HumanAgent × ℚ :=
  if agentScore q a > acc.2 then (some a, agentScore q a) else acc

/-- `HumanAgentFallback.find_best_agent` from the source: filter to
available-with-capacity agents, return `none` when that list is empty,
otherwise scan it with `best_score` starting at `-1` and a strict
`>` comparison (so the first agent attaining the maximum wins). -/
def find_best_agent (agents : List HumanAgent) (q : EscalatedQuery) :
    Option HumanAgent :=
  let available := availableAgents agents
  if available.isEmpty then none
  else (available.foldl (bestStep q) (none, -1)).1

/-! ### Assignment (`assign_query_to_agent`) and the scheduler tick -/

/-- The query-side mutation of `assign_query_to_agent`:
`query.agent_id = agent.id; query.status = "assigned";
query.assigned_time = datetime.now().isoformat()`. -/
def markAssigned (q : EscalatedQuery) (aid clockIso : String) :
    EscalatedQuery :=
  { q with agent_id := aid, status := "assigned", assigned_time := clockIso }

/-- The agent-side mutation of `assign_query_to_agent`:
`agent.current_chats += 1; agent.last_activity = datetime.now().isoformat()`. -/
def reserveAgent (a : HumanAgent) (clockIso : String) : HumanAgent :=
  { a with current_chats := a.current_chats + 1, last_activity := clockIso }

/-- `HumanAgentFallback.assign_query_to_agent` from the source, acting
on the state with the query and agent identified by id (mutable object
identity; ids in the roster are distinct).  The body mutates the query,
then increments the agent's chat count, then calls
`notify_agent_assignment`; `notifyOk` models whether that call raises.
The surrounding `try/except` returns `False` on an exception but the
mutations already performed persist, so the resulting state does not
depend on `notifyOk` — only the returned boolean does. -/
def assign_query_to_agent (st : FallbackState) (qid aid clockIso : String)
    (notifyOk : Bool) : Bool × FallbackState :=
  let queries := st.escalated_queries.map
    (fun q => if q.id == qid then markAssigned q aid clockIso else q)
  let agents := st.agents.map
    (fun a => if a.id == aid then reserveAgent a clockIso else a)
  (notifyOk, { agents := agents, escalated_queries := queries })

/-- The loop body of `assign_pending_queries`, processed left to right
over the query list with the evolving agent roster: a pending query is
matched via `find_best_agent` and, when a candidate exists, assigned
(query marked, agent's chat count incremented).  The pending snapshot
taken up front by the source is equivalent: assigning one query never
changes another query's pending status. -/
def assignPending (clockIso : String) :
    List EscalatedQuery → List HumanAgent →
    List EscalatedQuery × List HumanAgent
  | [], agents => ([], agents)
  | q :: rest, agents =>
    if q.status == "pending" then
      match find_best_agent agents q with
      | some a =>
        let agents' := agents.map
          (fun b => if b.id == a.id then reserveAgent b clockIso else b)
        (markAssigned q a.id clockIso ::
            (assignPending clockIso rest agents').1,
          (assignPending clockIso rest agents').2)
      | none =>
        (q :: (assignPending clockIso rest agents).1,
          (assignPending clockIso rest agents).2)
    else
      (q :: (assignPending clockIso rest agents).1,
        (assignPending clockIso rest agents).2)

/-- `HumanAgentFallback.assign_pending_queries` (one scheduler tick):
every pending query is offered to the matcher and assigned when a
candidate exists. -/
def assign_pending_queries (st : FallbackState) (clockIso : String) :
    FallbackState :=
  { agents := (assignPending clockIso st.escalated_queries st.agents).2,
    escalated_queries :=
      (assignPending clockIso st.escalated_queries st.agents).1 }

/-! ### Escalation (`escalate_query`) -/

/-- `query_id = f"ESC_{datetime.now().strftime('%Y%m%d%H%M%S')}"`:
the id is the fixed prefix plus the current clock formatted to whole
seconds. -/
def mkQueryId (clockSeconds : String) : String := "ESC_" ++ clockSeconds

/-- `HumanAgentFallback.escalate_query` from the source: build the id
from the second-granularity clock, construct the record (complexity
`CRITICAL` when `priority >= 4`, else `COMPLEX`, status `"pending"`),
leave `language` absent (`hasattr` on a dataclass without the field is
false, so the guarded store never runs and the `language` argument is
discarded), and append to the queue.  Returns the new query id. -/
def escalate_query (st : FallbackState) (customer_id query : String)
    (reason : EscalationReason) (priority : Int) (language : String)
    (clockSeconds clockIso : String) : String × FallbackState :=
  let query_id := mkQueryId clockSeconds
  let _ := language
  let escalated : EscalatedQuery :=
    { id := query_id, customer_id := customer_id, query := query,
      complexity := if priority ≥ 4 then .critical else .complex,
      reason := reason, priority := priority,
      created_time := clockIso, language := none }
  (query_id, { st with escalated_queries := st.escalated_queries ++ [escalated] })

/-! ### Wait-time estimator (`get_estimated_wait_time`) -/

/-- The `available_agents` count in `get_estimated_wait_time`. -/
def availableCount (st : FallbackState) : ℕ :=
  (availableAgents st.agents).length

/-- The `pending_queries` count in `get_estimated_wait_time`. -/
def pendingCount (st : FallbackState) : ℕ :=
  (st.escalated_queries.filter (fun q => q.status == "pending")).length

/-- Round a rational to the nearest integer, ties to even — the
rounding IEEE-754 applies to a scaled mantissa. -/
def rne (q : ℚ) : ℤ :=
  if q - ⌊q⌋ < 1 / 2 then ⌊q⌋
  else if 1 / 2 < q - ⌊q⌋ then ⌊q⌋ + 1
  else if ⌊q⌋ % 2 = 0 then ⌊q⌋ else ⌊q⌋ + 1

/-- The IEEE-754 binary64 (Python float) value nearest to `q`: the
value scaled into the binade `[2^52, 2^53)` is rounded to the nearest
integer mantissa, ties to even.  The exponent is unbounded: overflow
to infinity (reached by Python only at magnitudes ≥ 2^1024) and
subnormals (below 2^-1022) are not modelled; every value the wait-time
arithmetic meets at realisable queue/roster sizes is far inside the
normal range. -/
def fl (q : ℚ) : ℚ :=
  if q = 0 then 0
  else if 0 < q then
    (rne (q * 2 ^ ((52 : ℤ) - Int.log 2 q)) : ℚ) *
      2 ^ (Int.log 2 q - (52 : ℤ))
  else
    -((rne (-q * 2 ^ ((52 : ℤ) - Int.log 2 (-q))) : ℚ) *
      2 ^ (Int.log 2 (-q) - (52 : ℤ)))

/-- Python's `int()` applied to a float: truncation toward zero. -/
def pyInt (q : ℚ) : ℤ := if 0 ≤ q then ⌊q⌋ else -⌊-q⌋

/-- `HumanAgentFallback.get_estimated_wait_time` from the source.
`wait_time = (pending_queries / available_agents) * 10` is evaluated in
Python floats: one correctly rounded true division, then one correctly
rounded multiplication by the exact float 10; `wait_time * 1.5` is one
more correctly rounded multiplication (1.5 is exactly representable);
`f"{int(wait_time)}-{int(wait_time * 1.5)} minutes"` truncates each
float with `int()`. -/
def get_estimated_wait_time (st : FallbackState) : String :=
  let available := availableCount st
  let pending := pendingCount st
  if available == 0 then "15-30 minutes"
  else if pending == 0 then "2-5 minutes"
  else
    let wait_time := fl (fl ((pending : ℚ) / (available : ℚ)) * 10)
    toString (pyInt wait_time) ++ "-"
      ++ toString (pyInt (fl (wait_time * (3 / 2)))) ++ " minutes"

/-! ### Resolution (`resolve_query`) and status update -/

/-- The query-side loop of `resolve_query`: find the first query with
the given id, set its status to `"resolved"` and stamp
`resolved_time`; report that query's `agent_id`.  `none` when no query
matches (the loop falls through and the function returns `False`). -/
def resolveInQueries (qid clockIso : String) :
    List EscalatedQuery → Option (String × List EscalatedQuery)
  | [] => none
  | q :: rest =>
    if q.id == qid then
      some (q.agent_id,
        { q with status := "resolved", resolved_time := clockIso } :: rest)
    else
      (resolveInQueries qid clockIso rest).map fun p => (p.1, q :: p.2)

/-- The agent-side loop of `resolve_query`: the first agent whose id
matches the query's `agent_id` has
`current_chats = max(0, current_chats - 1)` applied (the loop breaks
after the first match). -/
def releaseAgent (aid : String) : List HumanAgent → List HumanAgent
  | [] => []
  | a :: rest =>
    if a.id == aid then
      { a with current_chats := max 0 (a.current_chats - 1) } :: rest
    else a :: releaseAgent aid rest

/-- `HumanAgentFallback.resolve_query` from the source: the first query
with the given id (regardless of its current status) is marked resolved
and the first agent matching its `agent_id` is decremented with a floor
at 0; `False` (state unchanged) when the id is unknown. -/
def resolve_query (st : FallbackState) (qid clockIso : String) :
    Bool × FallbackState :=
  match resolveInQueries qid clockIso st.escalated_queries with
  | some (aid, qs) =>
    (true, { agents := releaseAgent aid st.agents, escalated_queries := qs })
  | none => (false, st)

/-- The agent loop of `update_agent_status`: the first agent with the
given id has its status and `last_activity` set (the loop returns on
the first match). -/
def setAgentStatus (aid : String) (status : AgentStatus)
    (clockIso : String) : List HumanAgent → List HumanAgent
  | [] => []
  | a :: rest =>
    if a.id == aid then
      { a with status := status, last_activity := clockIso } :: rest
    else a :: setAgentStatus aid status clockIso rest

/-- `HumanAgentFallback.update_agent_status` from the source. -/
def update_agent_status (st : FallbackState) (aid : String)
    (status : AgentStatus) (clockIso : String) : Bool × FallbackState :=
  (st.agents.any (fun a => a.id == aid),
   { st with agents := setAgentStatus aid status clockIso st.agents })

/-! ### Reachable states -/

/-- One public operation on the fallback state: an escalation, a
scheduler tick, a resolution, or an agent status update. -/
inductive Step : FallbackState → FallbackState → Prop where
  | escalate (st : FallbackState) (customer_id query : String)
      (reason : EscalationReason) (priority : Int) (language : String)
      (clockSeconds clockIso : String) :
      Step st (escalate_query st customer_id query reason priority
        language clockSeconds clockIso).2
  | tick (st : FallbackState) (clockIso : String) :
      Step st (assign_pending_queries st clockIso)
  | resolve (st : FallbackState) (qid clockIso : String) :
      Step st (resolve_query st qid clockIso).2
  | updateStatus (st : FallbackState) (aid : String) (status : AgentStatus)
      (clockIso : String) :
      Step st (update_agent_status st aid status clockIso).2

/-- States reachable from the freshly constructed system by finite
sequences of public operations. -/
inductive Reachable : FallbackState → Prop where
  | init (t0 : String) : Reachable (initialState t0)
  | step {st st' : FallbackState} : Reachable st → Step st st' →
      Reachable st'

/-! ### Scenario inputs -/

/-- Scenario C agent A: expertise `{sales}`, load 0, capacity 5. -/
def scenarioAgentA : HumanAgent :=
  { id := "A", name := "Agent A", email := "a@example.com", phone := "",
    expertise := ["sales"], languages := [], current_chats := 0,
    max_chats := 5 }

/-- Scenario C agent B: expertise `{sales, finance}`, load 0, capacity 5. -/
def scenarioAgentB : HumanAgent :=
  { id := "B", name := "Agent B", email := "b@example.com", phone := "",
    expertise := ["sales", "finance"], languages := [], current_chats := 0,
    max_chats := 5 }

/-- Scenario C query: reason `PriceNegotiation`, priority 2. -/
def scenarioQueryC : EscalatedQuery :=
  { id := "q_c", customer_id := "cust", query := "price please",
    complexity := .complex, reason := .price_negotiation, priority := 2 }

/-- The first roster agent as constructed by `initialize_agents "t0"`. -/
def rosterAgent1 : HumanAgent :=
  { id := "agent_1", name := "Rajesh Kumar",
    email := "rajesh@everylingua.com", phone := "+91-9876543211",
    expertise := ["sales", "test_rides", "finance"],
    languages := ["hi", "en", "mr"], max_chats := 5,
    last_activity := "t0" }

/-- A fresh system holding one never-assigned (Pending) escalation. -/
def pendingStateC3 : FallbackState :=
  { agents := initialize_agents "t0",
    escalated_queries :=
      [{ id := "ESC_1", customer_id := "cust", query := "warranty claim",
         complexity := .complex, reason := .customer_complaint }] }

/-- The record `escalate_query` constructs and appends (status
`"pending"`, empty `agent_id`, language attribute absent). -/
def newEscalation (customer_id query : String) (reason : EscalationReason)
    (priority : Int) (clockSeconds clockIso : String) : EscalatedQuery :=
  { id := mkQueryId clockSeconds, customer_id := customer_id,
    query := query,
    complexity := if priority ≥ 4 then .critical else .complex,
    reason := reason, priority := priority,
    created_time := clockIso, language := none }

/-- Modelled from the claim's words: the matcher score with the
language-bonus line removed, for comparison with `agentScore`. -/
def scoreSansLanguage (q : EscalatedQuery) (a : HumanAgent) : ℚ :=
  let s1 : ℚ := (splitStr '_' q.reason.value).foldl
    (fun s w => if a.expertise.contains w then s + 2 else s) 0
  let s3 : ℚ := if q.priority ≥ 4 then s1 + 1 else s1
  s3 + ((a.max_chats : ℚ) - (a.current_chats : ℚ)) * (1 / 2)

/-- Modelled from the spec's words (§4.4 selection policy): the
candidate with the strictly highest score wins, a tie goes to the first
candidate in iteration order, and the empty candidate list yields
`none` — i.e. the first candidate whose score equals the maximum
score over the candidate list. -/
def selectBestAgentSpec (q : EscalatedQuery) :
    List HumanAgent → Option HumanAgent
  | [] => none
  | a :: rest =>
    let m := rest.foldl (fun acc b => max acc (agentScore q b))
      (agentScore q a)
    (a :: rest).find? (fun b => decide (agentScore q b = m))

/-- A system with an empty roster and two pending items (wait-time
branch with zero available agents). -/
def noAgentsState : FallbackState :=
  { agents := [],
    escalated_queries :=
      [{ id := "ESC_a", customer_id := "c1", query := "q1",
         complexity := .complex, reason := .emergency },
       { id := "ESC_b", customer_id := "c2", query := "q2",
         complexity := .complex, reason := .complex_query }] }

/-- A system with three available agents and 49 pending escalations:
the smallest wait-time inputs on which binary64 rounding shows up in
the estimator's output. -/
def stC7 : FallbackState :=
  { agents :=
      [ { id := "x1", name := "X1", email := "x1@example.com",
          phone := "", expertise := ["sales"], languages := ["en"] },
        { id := "x2", name := "X2", email := "x2@example.com",
          phone := "", expertise := ["service"], languages := ["en"] },
        { id := "x3", name := "X3", email := "x3@example.com",
          phone := "", expertise := ["finance"], languages := ["en"] } ],
    escalated_queries := List.replicate 49
      { id := "ESC_bulk", customer_id := "cust", query := "q",
        complexity := .complex, reason := .complex_query } }

/-- The roster invariant: agent ids are pairwise distinct (they name
the mutable agent objects) and every load is within capacity. -/
def AgentsInv (l : List HumanAgent) : Prop :=
  (l.map HumanAgent.id).Nodup ∧
  ∀ a ∈ l, 0 ≤ a.current_chats ∧ a.current_chats ≤ a.max_chats

/-- The fourth roster agent as constructed by `initialize_agents "t0"`
(the matcher's pick for an emergency escalation on a fresh system). -/
def wAgent4 : HumanAgent :=
  { id := "agent_4", name := "Sneha Reddy",
    email := "sneha@everylingua.com", phone := "+91-9876543214",
    expertise := ["service", "emergency", "complaints"],
    languages := ["en", "hi", "te", "kn"], max_chats := 4,
    last_activity := "t0" }

end HumanFallback

namespace HumanFallback

/-! ### Helper lemmas -/

/-- When no query carries the id, the query-side resolve loop falls
through. -/
theorem resolveInQueries_eq_none (qid clk : String)
    (l : List EscalatedQuery) (h : ∀ q ∈ l, q.id ≠ qid) :
    resolveInQueries qid clk l = none := by
  induction l with
  | nil => rfl
  | cons q rest ih =>
    have hq : q.id ≠ qid := h q (by simp)
    have hrest : ∀ p ∈ rest, p.id ≠ qid := fun p hp => h p (by simp [hp])
    simp only [resolveInQueries, beq_iff_eq, if_neg hq, ih hrest,
      Option.map_none']

/-- When some query carries the id and every such query is
never-assigned (`agent_id = ""`), the query-side resolve loop succeeds,
reports the empty agent id, and marks a query with that id resolved. -/
theorem resolveInQueries_found (qid clk : String)
    (l : List EscalatedQuery) (hex : ∃ q ∈ l, q.id = qid)
    (hag : ∀ q ∈ l, q.id = qid → q.agent_id = "") :
    ∃ l', resolveInQueries qid clk l = some ("", l') ∧
      ∃ q' ∈ l', q'.id = qid ∧ q'.status = "resolved" := by
  induction l with
  | nil => simp at hex
  | cons q rest ih =>
    by_cases hq : q.id = qid
    · refine ⟨{ q with status := "resolved", resolved_time := clk } :: rest,
        ?_, ?_⟩
      · have hagq : q.agent_id = "" := hag q (by simp) hq
        simp [resolveInQueries, hq, hagq]
      · exact ⟨{ q with status := "resolved", resolved_time := clk },
          by simp, hq, rfl⟩
    · obtain ⟨p, hp, hpid⟩ := hex
      rcases List.mem_cons.mp hp with h1 | h1
      · exact absurd (h1 ▸ hpid) hq
      · obtain ⟨l', hl', q', hq', hprops⟩ :=
          ih ⟨p, h1, hpid⟩ (fun p hp h => hag p (by simp [hp]) h)
        exact ⟨q :: l', by simp [resolveInQueries, hq, hl'],
          q', by simp [hq'], hprops⟩

/-- The release loop leaves the roster untouched when no agent carries
the id (in particular for the empty `agent_id` of a never-assigned
query). -/
theorem releaseAgent_of_not_mem (aid : String) (l : List HumanAgent)
    (h : ∀ a ∈ l, a.id ≠ aid) : releaseAgent aid l = l := by
  induction l with
  | nil => rfl
  | cons a rest ih =>
    have ha : a.id ≠ aid := h a (by simp)
    simp only [releaseAgent, beq_iff_eq, if_neg ha]
    exact congrArg _ (ih fun b hb => h b (by simp [hb]))

/-! ### Claim C1 -/

/-- Claim C1 (counterexample): on the query text
"my bike is not working" with defaults that trigger no
confidence/latency rule, the classifier does **not** return
`(true, TechnicalIssue)` — the complaint keyword list, checked first,
already contains "not working". -/
theorem classifier_not_working_counterexample :
    should_escalate_to_human "my bike is not working" "" 1 0 ≠
      (true, some EscalationReason.technical_issue) := by
  decide

/-- Claim C1 (amended): on "my bike is not working" (no
confidence/latency trigger) the classifier returns
`(true, CustomerComplaint)`: the customer-complaint keyword rule is the
first rule in the evaluation order to fire, even though the
technical-fault keyword list also matches the text. -/
theorem classifier_not_working_customer_complaint :
    should_escalate_to_human "my bike is not working" "" 1 0 =
      (true, some EscalationReason.customer_complaint) ∧
    technical_keywords.any
      (fun k => strContains (lowerStr "my bike is not working") k) = true := by
  constructor
  · decide
  · decide

/-! ### Claim C2 -/

/-- Claim C2 (counterexample): with candidates `[A, B]` from Scenario C
and the `PriceNegotiation`/priority-2 query, the matcher does **not**
select agent B. -/
theorem matcher_scenarioC_counterexample :
    find_best_agent [scenarioAgentA, scenarioAgentB] scenarioQueryC ≠
      some scenarioAgentB := by
  have h : find_best_agent [scenarioAgentA, scenarioAgentB] scenarioQueryC =
      some scenarioAgentA := by
    simp [find_best_agent, availableAgents, isAvailableWithCapacity, bestStep,
      agentScore, scenarioAgentA, scenarioAgentB, scenarioQueryC,
      EscalationReason.value, splitStr, splitChar]
    norm_num
  rw [h]
  simp [scenarioAgentA, scenarioAgentB]

/-- Claim C2 (amended): in Scenario C the matcher selects agent A, not
agent B.  Splitting `"price_negotiation"` yields the words `"price"`
and `"negotiation"`, neither of which is in either agent's expertise
set (B's extra `"finance"` tag is not one of those words), so both
agents score `0 + 0 + (5 − 0) × 0.5 = 2.5` and the tie is broken in
favour of the first candidate in registry order, agent A. -/
theorem matcher_scenarioC_selects_A :
    find_best_agent [scenarioAgentA, scenarioAgentB] scenarioQueryC =
      some scenarioAgentA ∧
    agentScore scenarioQueryC scenarioAgentA = 5 / 2 ∧
    agentScore scenarioQueryC scenarioAgentB = 5 / 2 := by
  refine ⟨?_, ?_, ?_⟩
  · simp [find_best_agent, availableAgents, isAvailableWithCapacity, bestStep,
      agentScore, scenarioAgentA, scenarioAgentB, scenarioQueryC,
      EscalationReason.value, splitStr, splitChar]
    norm_num
  · simp [agentScore, scenarioAgentA, scenarioQueryC,
      EscalationReason.value, splitStr, splitChar]
    norm_num
  · simp [agentScore, scenarioAgentB, scenarioQueryC,
      EscalationReason.value, splitStr, splitChar]
    norm_num

/-! ### Claim C3 -/

/-- Claim C3 (counterexample): resolving a Pending (never-assigned)
query id does **not** fail — on a fresh system holding one pending
escalation, `resolve_query` returns `true` and flips the item's status
to `"resolved"`, contradicting the claimed `InvalidTransition`
failure with unchanged status. -/
theorem resolve_pending_counterexample :
    (resolve_query pendingStateC3 "ESC_1" "t1").1 = true ∧
    (resolve_query pendingStateC3 "ESC_1" "t1").2.escalated_queries.map
      EscalatedQuery.status = ["resolved"] := by
  decide

/-- Claim C3 (amended): resolving an id not present in the queue fails
(returns `false`) and leaves the state unchanged; but resolving a
Pending (never-assigned, `agent_id = ""`) id *succeeds*: it returns
`true`, marks the query resolved, and leaves every agent — hence every
`currentLoad` — unchanged, because the empty `agent_id` matches no
roster agent.  The code performs no status check before resolving. -/
theorem resolve_pending_behavior (st : FallbackState) (qid clk : String) :
    ((∀ q ∈ st.escalated_queries, q.id ≠ qid) →
      resolve_query st qid clk = (false, st)) ∧
    ((∃ q ∈ st.escalated_queries, q.id = qid) →
     (∀ q ∈ st.escalated_queries, q.id = qid → q.agent_id = "") →
     (∀ a ∈ st.agents, a.id ≠ "") →
     (resolve_query st qid clk).1 = true ∧
     (resolve_query st qid clk).2.agents = st.agents ∧
     ∃ q' ∈ (resolve_query st qid clk).2.escalated_queries,
       q'.id = qid ∧ q'.status = "resolved") := by
  constructor
  · intro h
    simp [resolve_query, resolveInQueries_eq_none qid clk _ h]
  · intro hex hag hids
    obtain ⟨l', hl', hq'⟩ := resolveInQueries_found qid clk _ hex hag
    simp only [resolve_query, hl']
    exact ⟨trivial, releaseAgent_of_not_mem "" st.agents hids, hq'⟩

/-- Claim C3 (witness): both branches of `resolve_pending_behavior`
instantiated on the concrete one-pending-query system. -/
theorem resolve_pending_witness :
    resolve_query pendingStateC3 "missing" "t9" = (false, pendingStateC3) ∧
    (resolve_query pendingStateC3 "ESC_1" "t9").1 = true ∧
    (resolve_query pendingStateC3 "ESC_1" "t9").2.agents =
      pendingStateC3.agents ∧
    ∃ q' ∈ (resolve_query pendingStateC3 "ESC_1" "t9").2.escalated_queries,
      q'.id = "ESC_1" ∧ q'.status = "resolved" := by
  have h1 := (resolve_pending_behavior pendingStateC3 "missing" "t9").1
    (by decide)
  have h2 := (resolve_pending_behavior pendingStateC3 "ESC_1" "t9").2
    (by decide) (by decide) (by decide)
  exact ⟨h1, h2.1, h2.2.1, h2.2.2⟩

/-! ### Claim C4 -/

/-- Claim C4 (counterexample): a tick-driven assignment whose notify
step raises (modelled by `notifyOk = false`, the only failure point the
`try` block can hit after its unconditional mutations) reports failure
(`False` from `assign_query_to_agent`) yet leaves the agent's
`currentLoad` incremented to 1 — not its pre-tick value 0 — and the
item marked `"assigned"`.  There is no compensating release. -/
theorem assign_atomicity_counterexample :
    (assign_query_to_agent pendingStateC3 "ESC_1" "agent_1" "t1" false).1
      = false ∧
    (assign_query_to_agent pendingStateC3 "ESC_1" "agent_1" "t1"
      false).2.agents.map HumanAgent.current_chats = [1, 0, 0, 0] ∧
    (assign_query_to_agent pendingStateC3 "ESC_1" "agent_1" "t1"
      false).2.escalated_queries.map EscalatedQuery.status
      = ["assigned"] := by
  decide

/-- Claim C4 (amended): assignment is **not** atomic.  The code marks
the item Assigned first, then increments the agent's chat count, and
only then notifies; when the notify step raises, the surrounding
`try/except` returns `False` but performs no compensating release, so
the resulting state is identical to the successful case: the item stays
Assigned and the matched agent's `currentLoad` stays incremented. -/
theorem assign_notify_failure_keeps_mutations (st : FallbackState)
    (qid aid clk : String) :
    (assign_query_to_agent st qid aid clk false).1 = false ∧
    (assign_query_to_agent st qid aid clk false).2 =
      (assign_query_to_agent st qid aid clk true).2 ∧
    ∀ a ∈ st.agents, a.id = aid →
      ∃ a' ∈ (assign_query_to_agent st qid aid clk false).2.agents,
        a'.id = aid ∧ a'.current_chats = a.current_chats + 1 := by
  refine ⟨rfl, rfl, fun a ha haid => ?_⟩
  refine ⟨reserveAgent a clk, ?_, haid ▸ rfl, rfl⟩
  have h : (fun b => if b.id == aid then reserveAgent b clk else b) a =
      reserveAgent a clk := by simp [haid]
  exact h ▸ List.mem_map_of_mem _ ha

/-- Claim C4 (witness): the non-atomicity at the concrete pending
state, the first roster agent being the assignee. -/
theorem assign_notify_failure_witness :
    (assign_query_to_agent pendingStateC3 "ESC_1" "agent_1" "t1" false).1
      = false ∧
    ∃ a' ∈ (assign_query_to_agent pendingStateC3 "ESC_1" "agent_1" "t1"
        false).2.agents,
      a'.id = "agent_1" ∧ a'.current_chats = rosterAgent1.current_chats + 1
    := by
  have h := assign_notify_failure_keeps_mutations pendingStateC3 "ESC_1"
    "agent_1" "t1"
  exact ⟨h.1, h.2.2 rosterAgent1 (by decide) rfl⟩

/-! ### Claim C9 -/

/-- Claim C9 (counterexample): two distinct `escalate_query` calls —
different customers, different texts, the second call on the state the
first produced — whose creation timestamps fall within the same clock
second return the *same* query id, because the id is just
`"ESC_"` plus the `%Y%m%d%H%M%S`-formatted (second-granularity)
timestamp. -/
theorem query_id_collision_counterexample :
    (escalate_query (initialState "t0") "cust1" "first query"
      .emergency 1 "en" "20250101120000" "i1").1 =
    (escalate_query
      (escalate_query (initialState "t0") "cust1" "first query"
        .emergency 1 "en" "20250101120000" "i1").2
      "cust2" "second query" .complex_query 2 "hi"
      "20250101120000" "i2").1 := by
  decide

/-- Claim C9 (amended): query ids are unique only down to the clock
second — two `escalate_query` calls with distinct second-granularity
timestamps return distinct ids, but calls within the same clock second
collide (see the counterexample). -/
theorem escalate_ids_distinct (st st' : FallbackState)
    (c c' txt txt' : String) (r r' : EscalationReason) (p p' : Int)
    (lang lang' cs cs' ci ci' : String) (h : cs ≠ cs') :
    (escalate_query st c txt r p lang cs ci).1 ≠
      (escalate_query st' c' txt' r' p' lang' cs' ci').1 := by
  intro heq
  apply h
  have h2 : ("ESC_" ++ cs).data = ("ESC_" ++ cs').data :=
    congrArg String.data heq
  rw [String.data_append, String.data_append] at h2
  have h3 := List.append_cancel_left h2
  cases cs; cases cs'; exact congrArg String.mk h3

/-- Claim C9 (witness): calls one second apart get distinct ids. -/
theorem escalate_ids_distinct_witness :
    (escalate_query (initialState "t0") "cust1" "first query"
      .emergency 1 "en" "20250101120000" "i1").1 ≠
    (escalate_query (initialState "t0") "cust2" "second query"
      .complex_query 2 "hi" "20250101120001" "i2").1 :=
  escalate_ids_distinct (initialState "t0") (initialState "t0")
    "cust1" "cust2" "first query" "second query" .emergency .complex_query
    1 2 "en" "hi" "20250101120000" "20250101120001" "i1" "i2" (by decide)

/-! ### Claim C7 -/

/-- Nearest-integer rounding with ties to even agrees with `n` on the
open half-unit interval around `n`. -/
theorem rne_eq_of_near (q : ℚ) (n : ℤ) (h1 : (n : ℚ) - 1/2 < q)
    (h2 : q < n + 1/2) : rne q = n := by
  rcases le_or_lt (n : ℚ) q with h | h
  · have hf : ⌊q⌋ = n := Int.floor_eq_iff.mpr ⟨h, by linarith⟩
    have hlt : q - ⌊q⌋ < 1/2 := by rw [hf]; linarith
    rw [rne, if_pos hlt, hf]
  · have hf : ⌊q⌋ = n - 1 := by
      rw [Int.floor_eq_iff]
      push_cast
      constructor <;> linarith
    have hgt : 1/2 < q - ⌊q⌋ := by rw [hf]; push_cast; linarith
    rw [rne, if_neg (by linarith), if_pos hgt, hf]
    omega

/-- Nearest-integer rounding moves a value by at most a half. -/
theorem rne_err (q : ℚ) : |(rne q : ℚ) - q| ≤ 1/2 := by
  have h0 : (⌊q⌋ : ℚ) ≤ q := Int.floor_le q
  have h1 : q < ⌊q⌋ + 1 := Int.lt_floor_add_one q
  rw [rne]
  split_ifs with ha hb hc
  · rw [abs_le]; constructor <;> linarith
  · rw [abs_le]; push_cast; constructor <;> linarith
  · have he : q - ⌊q⌋ = 1/2 := le_antisymm (not_lt.mp hb) (not_lt.mp ha)
    rw [abs_le]; constructor <;> linarith
  · have he : q - ⌊q⌋ = 1/2 := le_antisymm (not_lt.mp hb) (not_lt.mp ha)
    rw [abs_le]; push_cast; constructor <;> linarith

/-- `Int.log 2` is determined by a bracketing pair of powers of two. -/
theorem int_log_two_eq (q : ℚ) (e : ℤ) (h1 : (2:ℚ) ^ e ≤ q)
    (h2 : q < 2 ^ (e + 1)) : Int.log 2 q = e := by
  have hq : 0 < q := lt_of_lt_of_le (zpow_pos (by norm_num) e) h1
  have hle : e ≤ Int.log 2 q := by
    rw [← Int.zpow_le_iff_le_log (by norm_num) hq]
    exact_mod_cast h1
  have hlt : Int.log 2 q < e + 1 := by
    rw [← Int.lt_zpow_iff_log_lt (by norm_num) hq]
    exact_mod_cast h2
  omega

/-- `fl` on the binade `[2^e, 2^(e+1))`: scale to the 53-bit mantissa
range, round to nearest (ties to even), scale back. -/
theorem fl_spec (q : ℚ) (e : ℤ) (h1 : (2:ℚ) ^ e ≤ q)
    (h2 : q < 2 ^ (e + 1)) :
    fl q = (rne (q * 2 ^ ((52:ℤ) - e)) : ℚ) * 2 ^ (e - (52:ℤ)) := by
  have hq : 0 < q := lt_of_lt_of_le (zpow_pos (by norm_num) e) h1
  rw [fl, if_neg (ne_of_gt hq), if_pos hq, int_log_two_eq q e h1 h2]

/-- Evaluate `fl` once the binade and the rounded mantissa are named. -/
theorem fl_eval (q : ℚ) (e n : ℤ) (h1 : (2:ℚ) ^ e ≤ q)
    (h2 : q < 2 ^ (e + 1)) (h3 : (n : ℚ) - 1/2 < q * 2 ^ ((52:ℤ) - e))
    (h4 : q * 2 ^ ((52:ℤ) - e) < n + 1/2) :
    fl q = (n : ℚ) * 2 ^ (e - (52:ℤ)) := by
  rw [fl_spec q e h1 h2, rne_eq_of_near _ n h3 h4]

/-- Correct rounding: `fl` has relative error at most `2^-53`. -/
theorem fl_err (q : ℚ) (hq : 0 < q) :
    |fl q - q| ≤ q * 2 ^ (-(53:ℤ)) := by
  have h1' := Int.zpow_log_le_self (show (1:ℕ) < 2 by norm_num) hq
  have h1 : (2:ℚ) ^ Int.log 2 q ≤ q := by exact_mod_cast h1'
  have h2' := Int.lt_zpow_succ_log_self (show (1:ℕ) < 2 by norm_num) q
  have h2 : q < (2:ℚ) ^ (Int.log 2 q + 1) := by exact_mod_cast h2'
  rw [fl_spec q (Int.log 2 q) h1 h2]
  generalize hL : Int.log 2 q = L at h1 ⊢
  have hMq : q * 2 ^ ((52:ℤ) - L) * 2 ^ (L - (52:ℤ)) = q := by
    rw [mul_assoc, ← zpow_add₀ (by norm_num : (2:ℚ) ≠ 0),
      show (52:ℤ) - L + (L - 52) = 0 by ring, zpow_zero, mul_one]
  have key : (rne (q * 2 ^ ((52:ℤ) - L)) : ℚ) * 2 ^ (L - (52:ℤ)) - q =
      ((rne (q * 2 ^ ((52:ℤ) - L)) : ℚ) - q * 2 ^ ((52:ℤ) - L)) *
        2 ^ (L - (52:ℤ)) := by
    rw [sub_mul, hMq]
  rw [key, abs_mul, abs_of_pos (zpow_pos (by norm_num : (0:ℚ) < 2) _)]
  calc |(rne (q * 2 ^ ((52:ℤ) - L)) : ℚ) - q * 2 ^ ((52:ℤ) - L)| *
        2 ^ (L - (52:ℤ))
      ≤ (1/2) * 2 ^ (L - (52:ℤ)) :=
        mul_le_mul_of_nonneg_right (rne_err _)
          (le_of_lt (zpow_pos (by norm_num) _))
    _ = 2 ^ L * 2 ^ (-(53:ℤ)) := by
        rw [show (1/2 : ℚ) = 2 ^ (-(1:ℤ)) by norm_num,
          ← zpow_add₀ (by norm_num : (2:ℚ) ≠ 0),
          ← zpow_add₀ (by norm_num : (2:ℚ) ≠ 0)]
        congr 1
        ring
    _ ≤ q * 2 ^ (-(53:ℤ)) :=
        mul_le_mul_of_nonneg_right h1
          (le_of_lt (zpow_pos (by norm_num) _))

/-- A correctly rounded positive value stays positive. -/
theorem fl_pos (q : ℚ) (hq : 0 < q) : 0 < fl q := by
  have h := abs_le.mp (fl_err q hq)
  have hlt : q * 2 ^ (-(53:ℤ)) < q := by
    have h2 : (2:ℚ) ^ (-(53:ℤ)) < 1 := by norm_num
    nlinarith
  linarith [h.1]

/-- Claim C7 (counterexample): at 49 pending items and 3
available-with-capacity agents, the binary64 arithmetic of the source
(`int((49/3)*10*1.5)` truncates `244.99999999999997`) makes the
estimator return "163-244 minutes", while the exact range
`[base, base × 1.5]` of the claim has `⌊base × 1.5⌋ = 245` — the
claimed formula mispredicts the program's output. -/
theorem wait_time_float_counterexample :
    get_estimated_wait_time stC7 = "163-244 minutes" ∧
    get_estimated_wait_time stC7 ≠ "163-245 minutes" ∧
    ⌊(49:ℚ) / 3 * 10 * (3/2)⌋ = (245:ℤ) := by
  have hca : availableCount stC7 = 3 := by decide
  have hcp : pendingCount stC7 = 49 := by decide
  have h1 : fl ((49:ℚ)/3) = 4597424619607381 * 2 ^ (-(48:ℤ)) := by
    have h := fl_eval ((49:ℚ)/3) 4 4597424619607381 (by norm_num)
      (by norm_num) (by norm_num) (by norm_num)
    rw [h]; norm_num
  have h2 : fl ((4597424619607381 : ℚ) * 2 ^ (-(48:ℤ)) * 10) =
      5746780774509226 * 2 ^ (-(45:ℤ)) := by
    have h := fl_eval ((4597424619607381 : ℚ) * 2 ^ (-(48:ℤ)) * 10) 7
      5746780774509226 (by norm_num) (by norm_num) (by norm_num)
      (by norm_num)
    rw [h]; norm_num
  have h3 : fl ((5746780774509226 : ℚ) * 2 ^ (-(45:ℤ)) * (3/2)) =
      8620171161763839 * 2 ^ (-(45:ℤ)) := by
    have h := fl_eval ((5746780774509226 : ℚ) * 2 ^ (-(45:ℤ)) * (3/2)) 7
      8620171161763839 (by norm_num) (by norm_num) (by norm_num)
      (by norm_num)
    rw [h]; norm_num
  have hlo : pyInt ((5746780774509226 : ℚ) * 2 ^ (-(45:ℤ))) = 163 := by
    rw [pyInt, if_pos (by positivity)]
    rw [Int.floor_eq_iff]
    norm_num
  have hhi : pyInt ((8620171161763839 : ℚ) * 2 ^ (-(45:ℤ))) = 244 := by
    rw [pyInt, if_pos (by positivity)]
    rw [Int.floor_eq_iff]
    norm_num
  have hmain : get_estimated_wait_time stC7 = "163-244 minutes" := by
    simp only [get_estimated_wait_time]
    rw [hca, hcp]
    rw [if_neg (by decide), if_neg (by decide)]
    push_cast
    rw [h1, h2, h3, hlo, hhi]
    rfl
  exact ⟨hmain, by rw [hmain]; decide, by rw [Int.floor_eq_iff]; norm_num⟩

/-- Claim C7 (amended): the estimator returns the fixed band
"15-30 minutes" whenever zero agents are Available-with-capacity
(whatever the pending count) and "2-5 minutes" when capacity exists
and nothing is pending; otherwise it returns "lo-hi minutes" where
`lo` and `hi` are the `int()` truncations of
`(pendingCount / availableAgentCount) * 10` and of that times `1.5`
as evaluated in IEEE-754 double precision — each endpoint is within
one whole minute of the exact values `⌊base⌋` and `⌊base × 1.5⌋`
(for pending counts up to `2^46`), but can fall one minute short of
them, as at 49 pending / 3 available. -/
theorem wait_time_estimator_spec (st : FallbackState) :
    (availableCount st = 0 →
      get_estimated_wait_time st = "15-30 minutes") ∧
    (availableCount st ≠ 0 → pendingCount st = 0 →
      get_estimated_wait_time st = "2-5 minutes") ∧
    (availableCount st ≠ 0 → pendingCount st ≠ 0 →
      pendingCount st ≤ 2 ^ 46 →
      ∃ lo hi : ℤ,
        get_estimated_wait_time st =
          toString lo ++ "-" ++ toString hi ++ " minutes" ∧
        |lo - ⌊(pendingCount st : ℚ) / (availableCount st : ℚ) * 10⌋|
          ≤ 1 ∧
        |hi - ⌊(pendingCount st : ℚ) / (availableCount st : ℚ) * 10
          * (3/2)⌋| ≤ 1) := by
  refine ⟨fun h0 => by simp [get_estimated_wait_time, h0],
    fun h0 hp => by simp [get_estimated_wait_time, h0, hp], ?_⟩
  intro h0 hp hscale
  set r : ℚ := (pendingCount st : ℚ) / (availableCount st : ℚ)
    with hrdef
  have hr0 : 0 < r := by
    apply div_pos
    · exact_mod_cast Nat.pos_of_ne_zero hp
    · exact_mod_cast Nat.pos_of_ne_zero h0
  have hrle : r ≤ (2:ℚ) ^ (46:ℕ) := by
    have ha1 : (1:ℚ) ≤ (availableCount st : ℚ) := by
      exact_mod_cast Nat.pos_of_ne_zero h0
    have hb1 : r ≤ (pendingCount st : ℚ) := by
      rw [hrdef]
      exact div_le_self (by positivity) ha1
    have hb2 : (pendingCount st : ℚ) ≤ (2:ℚ) ^ (46:ℕ) := by
      exact_mod_cast hscale
    linarith
  set ε : ℚ := 2 ^ (-(53:ℤ)) with hedef
  have hε0 : 0 < ε := zpow_pos (by norm_num) _
  have he1 := fl_err r hr0
  have hx1pos := fl_pos r hr0
  set x1 := fl r with hx1def
  have hd1 : |x1 - r| ≤ 1/128 := by
    calc |x1 - r| ≤ r * ε := he1
      _ ≤ (2:ℚ) ^ (46:ℕ) * ε := mul_le_mul_of_nonneg_right hrle hε0.le
      _ ≤ 1/128 := by rw [hedef]; norm_num
  have hx10 : 0 < x1 * 10 := by positivity
  have he2 := fl_err (x1 * 10) hx10
  have hx2pos := fl_pos (x1 * 10) hx10
  set x2 := fl (x1 * 10) with hx2def
  have hx1le : x1 ≤ (2:ℚ) ^ (46:ℕ) + 1 := by
    have h := abs_le.mp hd1
    linarith [h.2]
  have hd2' : |x2 - x1 * 10| ≤ ((2:ℚ) ^ (46:ℕ) + 1) * 10 * ε := by
    calc |x2 - x1 * 10| ≤ x1 * 10 * ε := he2
      _ ≤ ((2:ℚ) ^ (46:ℕ) + 1) * 10 * ε := by
          apply mul_le_mul_of_nonneg_right _ hε0.le
          exact mul_le_mul_of_nonneg_right hx1le (by norm_num)
  have hd2'' : ((2:ℚ) ^ (46:ℕ) + 1) * 10 * ε ≤ 1/10 := by
    rw [hedef]; norm_num
  have hd2 : |x2 - r * 10| ≤ 1/5 := by
    have ha := abs_le.mp hd1
    have hb := abs_le.mp (le_trans hd2' hd2'')
    rw [abs_le]
    constructor <;> linarith
  have hx20 : 0 < x2 * (3/2) := by positivity
  have he3 := fl_err (x2 * (3/2)) hx20
  have hx3pos := fl_pos (x2 * (3/2)) hx20
  set x3 := fl (x2 * (3/2)) with hx3def
  have hx2le : x2 ≤ (2:ℚ) ^ (46:ℕ) * 10 + 11 := by
    have ha := abs_le.mp hd2
    have hb : r * 10 ≤ (2:ℚ) ^ (46:ℕ) * 10 :=
      mul_le_mul_of_nonneg_right hrle (by norm_num)
    linarith
  have hd3' : |x3 - x2 * (3/2)| ≤
      ((2:ℚ) ^ (46:ℕ) * 10 + 11) * (3/2) * ε := by
    calc |x3 - x2 * (3/2)| ≤ x2 * (3/2) * ε := he3
      _ ≤ ((2:ℚ) ^ (46:ℕ) * 10 + 11) * (3/2) * ε := by
          apply mul_le_mul_of_nonneg_right _ hε0.le
          exact mul_le_mul_of_nonneg_right hx2le (by norm_num)
  have hd3'' : ((2:ℚ) ^ (46:ℕ) * 10 + 11) * (3/2) * ε ≤ 1/4 := by
    rw [hedef]; norm_num
  have hd3 : |x3 - r * 10 * (3/2)| ≤ 9/10 := by
    have ha := abs_le.mp hd2
    have hb := abs_le.mp (le_trans hd3' hd3'')
    rw [abs_le]
    constructor <;> linarith
  have hlo : |⌊x2⌋ - ⌊r * 10⌋| ≤ 1 := by
    have ha := abs_le.mp hd2
    have hup : ⌊x2⌋ ≤ ⌊r * 10⌋ + 1 := by
      have h1 : x2 ≤ r * 10 + ((1:ℤ):ℚ) := by push_cast; linarith
      have h2 := Int.floor_mono h1
      rwa [Int.floor_add_int] at h2
    have hdn : ⌊r * 10⌋ + (-1) ≤ ⌊x2⌋ := by
      have h1 : r * 10 + ((-1:ℤ):ℚ) ≤ x2 := by push_cast; linarith
      have h2 := Int.floor_mono h1
      rwa [Int.floor_add_int] at h2
    rw [abs_le]
    omega
  have hhi : |⌊x3⌋ - ⌊r * 10 * (3/2)⌋| ≤ 1 := by
    have ha := abs_le.mp hd3
    have hup : ⌊x3⌋ ≤ ⌊r * 10 * (3/2)⌋ + 1 := by
      have h1 : x3 ≤ r * 10 * (3/2) + ((1:ℤ):ℚ) := by push_cast; linarith
      have h2 := Int.floor_mono h1
      rwa [Int.floor_add_int] at h2
    have hdn : ⌊r * 10 * (3/2)⌋ + (-1) ≤ ⌊x3⌋ := by
      have h1 : r * 10 * (3/2) + ((-1:ℤ):ℚ) ≤ x3 := by
        push_cast; linarith
      have h2 := Int.floor_mono h1
      rwa [Int.floor_add_int] at h2
    rw [abs_le]
    omega
  refine ⟨pyInt x2, pyInt x3, ?_, ?_, ?_⟩
  · simp only [get_estimated_wait_time]
    rw [if_neg (by simpa using h0), if_neg (by simpa using hp)]
  · rw [show pyInt x2 = ⌊x2⌋ from if_pos hx2pos.le]
    exact hlo
  · rw [show pyInt x3 = ⌊x3⌋ from if_pos hx3pos.le]
    exact hhi

/-- Claim C7 (witness): all three estimator branches on concrete
systems — an empty roster with two pending items, the fresh roster
with no pending item, and the fresh roster (4 available agents) with
one pending item, where the exact range is `⌊5/2⌋ = 2` to
`⌊15/4⌋ = 3` minutes. -/
theorem wait_time_estimator_witness :
    get_estimated_wait_time noAgentsState = "15-30 minutes" ∧
    get_estimated_wait_time (initialState "t0") = "2-5 minutes" ∧
    ∃ lo hi : ℤ,
      get_estimated_wait_time pendingStateC3 =
        toString lo ++ "-" ++ toString hi ++ " minutes" ∧
      |lo - 2| ≤ 1 ∧ |hi - 3| ≤ 1 := by
  refine ⟨(wait_time_estimator_spec noAgentsState).1 (by decide),
    (wait_time_estimator_spec (initialState "t0")).2.1 (by decide)
      (by decide), ?_⟩
  obtain ⟨lo, hi, hs, h2, h3⟩ :=
    (wait_time_estimator_spec pendingStateC3).2.2 (by decide) (by decide)
      (by decide)
  have e2 : ⌊(pendingCount pendingStateC3 : ℚ) /
      (availableCount pendingStateC3 : ℚ) * 10⌋ = 2 := by
    rw [show pendingCount pendingStateC3 = 1 by decide,
      show availableCount pendingStateC3 = 4 by decide]
    rw [Int.floor_eq_iff]
    push_cast
    norm_num
  have e3 : ⌊(pendingCount pendingStateC3 : ℚ) /
      (availableCount pendingStateC3 : ℚ) * 10 * (3/2)⌋ = 3 := by
    rw [show pendingCount pendingStateC3 = 1 by decide,
      show availableCount pendingStateC3 = 4 by decide]
    rw [Int.floor_eq_iff]
    push_cast
    norm_num
  rw [e2] at h2
  rw [e3] at h3
  exact ⟨lo, hi, hs, h2, h3⟩

/-! ### Claim C10 -/

/-- Claim C10: every record stored by the public `escalate_query`
entry point has the `language` attribute absent (`none`), whatever
`language` argument was passed — the dataclass declares no such field,
so the `hasattr` guard never fires — and therefore the matcher's
+1 language bonus is never awarded for such a record: its score equals
the score with the language-bonus line removed, for every agent. -/
theorem escalate_language_absent_no_bonus (st : FallbackState)
    (c txt : String) (r : EscalationReason) (p : Int)
    (lang cs ci : String) :
    (escalate_query st c txt r p lang cs ci).2.escalated_queries =
      st.escalated_queries ++ [newEscalation c txt r p cs ci] ∧
    (newEscalation c txt r p cs ci).language = none ∧
    ∀ a : HumanAgent, agentScore (newEscalation c txt r p cs ci) a =
      scoreSansLanguage (newEscalation c txt r p cs ci) a := by
  refine ⟨rfl, rfl, fun a => ?_⟩
  simp [agentScore, scoreSansLanguage, newEscalation]

/-! ### Claim C8 -/

/-- The running maximum of scores never drops below its seed. -/
theorem le_foldl_maxScore (q : EscalatedQuery) (l : List HumanAgent)
    (i : ℚ) :
    i ≤ l.foldl (fun acc b => max acc (agentScore q b)) i := by
  induction l generalizing i with
  | nil => exact le_refl i
  | cons x xs ih =>
    exact le_trans (le_max_left i (agentScore q x)) (ih _)

/-- Every listed candidate's score is bounded by the running maximum. -/
theorem mem_score_le_foldl_maxScore (q : EscalatedQuery)
    (l : List HumanAgent) (i : ℚ) :
    ∀ b ∈ l, agentScore q b ≤
      l.foldl (fun acc c => max acc (agentScore q c)) i := by
  induction l generalizing i with
  | nil => intro b hb; simp at hb
  | cons x xs ih =>
    intro b hb
    rcases List.mem_cons.mp hb with rfl | hb
    · exact le_trans (le_max_right i (agentScore q b))
        (le_foldl_maxScore q xs _)
    · exact ih _ b hb

/-- The expertise fold only ever adds to its accumulator. -/
theorem le_foldl_expertise (a : HumanAgent) (ws : List String) (s : ℚ) :
    s ≤ ws.foldl
      (fun s w => if a.expertise.contains w then s + 2 else s) s := by
  suffices h : ∀ (t : ℚ), s ≤ t → s ≤ ws.foldl
      (fun s w => if a.expertise.contains w then s + 2 else s) t from
    h s (le_refl s)
  induction ws with
  | nil => exact fun t ht => ht
  | cons w ws ih =>
    intro t ht
    refine ih _ ?_
    show s ≤ if a.expertise.contains w = true then t + 2 else t
    by_cases hc : a.expertise.contains w = true
    · rw [if_pos hc]; linarith
    · rw [if_neg hc]; exact ht

/-- An available-with-capacity agent always scores at least the
remaining-capacity bonus, hence strictly above the loop's `-1` seed. -/
theorem agentScore_gt_neg_one (q : EscalatedQuery) (a : HumanAgent)
    (h : isAvailableWithCapacity a = true) : -1 < agentScore q a := by
  have hlt : a.current_chats < a.max_chats := by
    simp [isAvailableWithCapacity] at h
    exact h.2
  have hcap : (1 : ℚ) ≤ (a.max_chats : ℚ) - (a.current_chats : ℚ) := by
    have h1 : a.current_chats + 1 ≤ a.max_chats := hlt
    have h2 : ((a.current_chats + 1 : ℤ) : ℚ) ≤ ((a.max_chats : ℤ) : ℚ) :=
      Int.cast_le.mpr h1
    push_cast at h2
    linarith
  have h1 : (0 : ℚ) ≤ (splitStr '_' q.reason.value).foldl
      (fun s w => if a.expertise.contains w then s + 2 else s) 0 :=
    le_foldl_expertise a _ 0
  simp only [agentScore]
  split_ifs <;> linarith

/-- The best-score loop seeded with candidate `b` returns the first
candidate of `b :: l` attaining the maximum score of `b :: l`. -/
theorem foldl_bestStep_eq_find (q : EscalatedQuery) (l : List HumanAgent) :
    ∀ b : HumanAgent,
    (l.foldl (bestStep q) (some b, agentScore q b)).1 =
      (b :: l).find? (fun c => decide (agentScore q c =
        l.foldl (fun acc x => max acc (agentScore q x))
          (agentScore q b))) := by
  induction l with
  | nil => intro b; simp [List.find?]
  | cons x xs ih =>
    intro b
    by_cases hgt : agentScore q b < agentScore q x
    · have hstep : bestStep q (some b, agentScore q b) x =
          (some x, agentScore q x) := by
        simp only [bestStep]
        exact if_pos hgt
      rw [List.foldl_cons, hstep, ih x]
      have hmax : max (agentScore q b) (agentScore q x) =
          agentScore q x := max_eq_right (le_of_lt hgt)
      simp only [List.foldl_cons, hmax]
      have hb : ¬ (agentScore q b =
          xs.foldl (fun acc x => max acc (agentScore q x))
            (agentScore q x)) := by
        intro he
        have h1 := le_foldl_maxScore q xs (agentScore q x)
        rw [← he] at h1
        linarith
      exact (List.find?_cons_of_neg _ (by simpa using hb)).symm
    · push_neg at hgt
      have hstep : bestStep q (some b, agentScore q b) x =
          (some b, agentScore q b) := by
        simp only [bestStep]
        exact if_neg (not_lt.mpr hgt)
      rw [List.foldl_cons, hstep, ih b]
      have hmax : max (agentScore q b) (agentScore q x) =
          agentScore q b := max_eq_left hgt
      simp only [List.foldl_cons, hmax]
      by_cases hb : agentScore q b =
          xs.foldl (fun acc x => max acc (agentScore q x))
            (agentScore q b)
      · rw [List.find?_cons_of_pos _ (by simpa using hb),
          List.find?_cons_of_pos _ (by simpa using hb)]
      · have hx : ¬ (agentScore q x =
            xs.foldl (fun acc x => max acc (agentScore q x))
              (agentScore q b)) := by
          intro he
          refine hb (le_antisymm (le_foldl_maxScore q xs _) ?_)
          rw [← he]
          exact hgt
        calc (List.find? (fun c => decide (agentScore q c =
              xs.foldl (fun acc x => max acc (agentScore q x))
                (agentScore q b))) (b :: xs))
            = List.find? (fun c => decide (agentScore q c =
                xs.foldl (fun acc x => max acc (agentScore q x))
                  (agentScore q b))) xs :=
              List.find?_cons_of_neg _ (by simpa using hb)
          _ = List.find? (fun c => decide (agentScore q c =
                xs.foldl (fun acc x => max acc (agentScore q x))
                  (agentScore q b))) (x :: xs) :=
              (List.find?_cons_of_neg _ (by simpa using hx)).symm
          _ = List.find? (fun c => decide (agentScore q c =
                xs.foldl (fun acc x => max acc (agentScore q x))
                  (agentScore q b))) (b :: x :: xs) :=
              (List.find?_cons_of_neg _ (by simpa using hb)).symm

/-- Claim C8: the matcher realises the documented selection policy.
`find_best_agent` equals the spec-side selector (first candidate of the
filtered availability list attaining the maximum score; `none` on the
empty list); in particular the empty candidate list yields `none`, and
any returned agent is a candidate whose score is greatest among all
candidates (the first such one, by the spec-side form). -/
theorem matcher_selection_policy (agents : List HumanAgent)
    (q : EscalatedQuery) :
    find_best_agent agents q =
      selectBestAgentSpec q (availableAgents agents) ∧
    (availableAgents agents = [] → find_best_agent agents q = none) ∧
    (∀ a, find_best_agent agents q = some a →
      a ∈ availableAgents agents ∧
      ∀ b ∈ availableAgents agents,
        agentScore q b ≤ agentScore q a) := by
  have hmain : find_best_agent agents q =
      selectBestAgentSpec q (availableAgents agents) := by
    cases hl : availableAgents agents with
    | nil => simp [find_best_agent, hl, selectBestAgentSpec]
    | cons a rest =>
      have hmem : a ∈ availableAgents agents := by
        rw [hl]; exact List.mem_cons_self a rest
      have ha : isAvailableWithCapacity a = true :=
        (List.mem_filter.mp hmem).2
      have hgt := agentScore_gt_neg_one q a ha
      have hstep : bestStep q (none, -1) a = (some a, agentScore q a) := by
        simp only [bestStep]
        exact if_pos hgt
      simp only [find_best_agent]
      rw [hl, if_neg (by simp : ¬((a :: rest).isEmpty = true)),
        List.foldl_cons, hstep, foldl_bestStep_eq_find]
      simp only [selectBestAgentSpec]
  refine ⟨hmain, fun he => by rw [hmain, he]; rfl, fun a ha => ?_⟩
  rw [hmain] at ha
  cases hl : availableAgents agents with
  | nil => rw [hl] at ha; simp [selectBestAgentSpec] at ha
  | cons c rest =>
    rw [hl] at ha
    simp only [selectBestAgentSpec] at ha
    have hmem : a ∈ c :: rest := List.mem_of_find?_eq_some ha
    have hpred := List.find?_some ha
    have ham : agentScore q a =
        rest.foldl (fun acc b => max acc (agentScore q b))
          (agentScore q c) := of_decide_eq_true hpred
    refine ⟨hmem, fun b hb => ?_⟩
    rcases List.mem_cons.mp hb with rfl | hb
    · rw [ham]; exact le_foldl_maxScore q rest (agentScore q b)
    · rw [ham]; exact mem_score_le_foldl_maxScore q rest _ b hb

/-- Claim C8 (witness): the policy instantiated on the Scenario C
candidates: the returned agent A is a candidate with maximal score. -/
theorem matcher_selection_policy_witness :
    scenarioAgentA ∈ availableAgents [scenarioAgentA, scenarioAgentB] ∧
    ∀ b ∈ availableAgents [scenarioAgentA, scenarioAgentB],
      agentScore scenarioQueryC b ≤ agentScore scenarioQueryC
        scenarioAgentA := by
  have hfind : find_best_agent [scenarioAgentA, scenarioAgentB]
      scenarioQueryC = some scenarioAgentA := by
    simp [find_best_agent, availableAgents, isAvailableWithCapacity,
      bestStep, agentScore, scenarioAgentA, scenarioAgentB, scenarioQueryC,
      EscalationReason.value, splitStr, splitChar]
    norm_num
  exact (matcher_selection_policy [scenarioAgentA, scenarioAgentB]
    scenarioQueryC).2.2 scenarioAgentA hfind

/-! ### Claim C5 -/

/-- The best-score loop only ever returns its seed or a listed agent. -/
theorem foldl_bestStep_result_mem (q : EscalatedQuery)
    (l : List HumanAgent) :
    ∀ (acc : Option HumanAgent × ℚ) (a : HumanAgent),
      (l.foldl (bestStep q) acc).1 = some a → acc.1 = some a ∨ a ∈ l := by
  induction l with
  | nil => intro acc a h; exact Or.inl h
  | cons x xs ih =>
    intro acc a h
    rw [List.foldl_cons] at h
    rcases ih _ a h with h1 | h1
    · by_cases hc : agentScore q x > acc.2
      · rw [bestStep, if_pos hc] at h1
        exact Or.inr (by rw [← Option.some_inj.mp h1]; exact
          List.mem_cons_self x xs)
      · rw [bestStep, if_neg hc] at h1
        exact Or.inl h1
    · exact Or.inr (List.mem_cons_of_mem x h1)

/-- A returned best agent passed the availability filter. -/
theorem find_best_agent_mem_filter (agents : List HumanAgent)
    (q : EscalatedQuery) (a : HumanAgent)
    (h : find_best_agent agents q = some a) :
    a ∈ availableAgents agents := by
  by_cases he : (availableAgents agents).isEmpty = true
  · rw [find_best_agent, if_pos he] at h
    exact absurd h (by simp)
  · rw [find_best_agent, if_neg he] at h
    rcases foldl_bestStep_result_mem q (availableAgents agents)
      (none, -1) a h with h1 | h1
    · exact absurd h1 (by simp)
    · exact h1

/-- Updating an agent by id preserves the roster's id sequence. -/
theorem map_update_reserve_ids (aid c : String) (l : List HumanAgent) :
    (l.map (fun b => if b.id == aid then reserveAgent b c else b)).map
      HumanAgent.id = l.map HumanAgent.id := by
  rw [List.map_map]
  refine List.map_congr_left fun b _ => ?_
  show HumanAgent.id (if b.id == aid then reserveAgent b c else b) = b.id
  by_cases hc : b.id == aid
  · rw [if_pos hc]; rfl
  · rw [if_neg hc]

/-- The release loop preserves the roster's id sequence. -/
theorem releaseAgent_map_id (aid : String) (l : List HumanAgent) :
    (releaseAgent aid l).map HumanAgent.id = l.map HumanAgent.id := by
  induction l with
  | nil => rfl
  | cons a rest ih =>
    by_cases hc : a.id == aid
    · rw [releaseAgent, if_pos hc]; rfl
    · rw [releaseAgent, if_neg hc]
      simp only [List.map_cons, ih]

/-- A status update preserves id, load and capacity of every slot. -/
theorem setAgentStatus_map_proj (aid : String) (s : AgentStatus)
    (c : String) (l : List HumanAgent) :
    (setAgentStatus aid s c l).map
      (fun a => (a.id, a.current_chats, a.max_chats)) =
    l.map (fun a => (a.id, a.current_chats, a.max_chats)) := by
  induction l with
  | nil => rfl
  | cons a rest ih =>
    by_cases hc : a.id == aid
    · rw [setAgentStatus, if_pos hc]; rfl
    · rw [setAgentStatus, if_neg hc]
      simp only [List.map_cons, ih]

/-- Transfer a pointwise property along an equality of projections. -/
theorem forall_mem_of_map_eq {α β : Type} (f : α → β) (P : β → Prop)
    {l l' : List α} (h : l'.map f = l.map f)
    (hp : ∀ a ∈ l, P (f a)) : ∀ a ∈ l', P (f a) := by
  intro a ha
  have hm : f a ∈ l'.map f := List.mem_map_of_mem f ha
  rw [h] at hm
  obtain ⟨b, hb, hfb⟩ := List.mem_map.mp hm
  rw [← hfb]
  exact hp b hb

/-- The roster invariant transfers along equal
(id, load, capacity)-projections. -/
theorem agentsInv_of_proj_eq {l l' : List HumanAgent}
    (h : l'.map (fun a => (a.id, a.current_chats, a.max_chats)) =
      l.map (fun a => (a.id, a.current_chats, a.max_chats)))
    (hinv : AgentsInv l) : AgentsInv l' := by
  constructor
  · have hid : l'.map HumanAgent.id = l.map HumanAgent.id := by
      have h2 := congrArg
        (List.map (fun p : String × ℤ × ℤ => p.1)) h
      rw [List.map_map, List.map_map] at h2
      exact h2
    rw [hid]; exact hinv.1
  · exact forall_mem_of_map_eq _
      (fun p : String × ℤ × ℤ => 0 ≤ p.2.1 ∧ p.2.1 ≤ p.2.2) h hinv.2

/-- Reserving capacity for an in-capacity agent keeps the invariant. -/
theorem reserve_map_inv (a : HumanAgent) (c : String)
    (l : List HumanAgent) (hinv : AgentsInv l) (ha : a ∈ l)
    (hcap : a.current_chats < a.max_chats) :
    AgentsInv (l.map
      (fun b => if b.id == a.id then reserveAgent b c else b)) := by
  constructor
  · rw [map_update_reserve_ids]; exact hinv.1
  · intro b' hb'
    obtain ⟨b, hb, rfl⟩ := List.mem_map.mp hb'
    by_cases hc : b.id == a.id
    · have hba : b = a :=
        List.inj_on_of_nodup_map hinv.1 hb ha (beq_iff_eq.mp hc)
      rw [if_pos hc, reserveAgent]
      subst hba
      have hb0 := (hinv.2 b hb).1
      constructor
      · simp only []; linarith
      · simp only []; linarith
    · rw [if_neg hc]; exact hinv.2 b hb

/-- Releasing capacity (floored at 0) keeps the invariant. -/
theorem releaseAgent_inv (aid : String) (l : List HumanAgent)
    (hinv : AgentsInv l) : AgentsInv (releaseAgent aid l) := by
  refine ⟨by rw [releaseAgent_map_id]; exact hinv.1, ?_⟩
  have hb := hinv.2
  clear hinv
  induction l with
  | nil => intro b hb'; simp [releaseAgent] at hb'
  | cons a rest ih =>
    intro b hb'
    have ha := hb a (List.mem_cons_self a rest)
    by_cases hc : a.id == aid
    · rw [releaseAgent, if_pos hc] at hb'
      rcases List.mem_cons.mp hb' with rfl | h1
      · refine ⟨le_max_left 0 _, ?_⟩
        have h0 : (0 : ℤ) ≤ a.max_chats := le_trans ha.1 ha.2
        exact max_le h0 (by linarith [ha.2])
      · exact hb b (List.mem_cons_of_mem a h1)
    · rw [releaseAgent, if_neg hc] at hb'
      rcases List.mem_cons.mp hb' with rfl | h1
      · exact ha
      · exact ih (fun x hx => hb x (List.mem_cons_of_mem a hx)) b h1

/-- One scheduler pass keeps the invariant: capacity is only reserved
for agents that passed the availability filter. -/
theorem assignPending_inv (c : String) (qs : List EscalatedQuery) :
    ∀ ags, AgentsInv ags → AgentsInv (assignPending c qs ags).2 := by
  induction qs with
  | nil => intro ags h; exact h
  | cons q rest ih =>
    intro ags h
    by_cases hp : q.status == "pending"
    · cases hfind : find_best_agent ags q with
      | none =>
        rw [assignPending, if_pos hp, hfind]
        exact ih ags h
      | some a =>
        rw [assignPending, if_pos hp, hfind]
        have hmem := find_best_agent_mem_filter ags q a hfind
        have hmem2 := List.mem_filter.mp hmem
        have hcap : a.current_chats < a.max_chats := by
          have := hmem2.2
          simp [isAvailableWithCapacity] at this
          exact this.2
        exact ih _ (reserve_map_inv a c ags h hmem2.1 hcap)
    · rw [assignPending, if_neg hp]
      exact ih ags h

/-- Every public operation preserves the roster invariant. -/
theorem step_inv {st st' : FallbackState} (h : Step st st')
    (hinv : AgentsInv st.agents) : AgentsInv st'.agents := by
  cases h with
  | escalate c txt r p lang cs ci => exact hinv
  | tick c =>
    exact assignPending_inv c st.escalated_queries st.agents hinv
  | resolve qid c =>
    show AgentsInv (resolve_query st qid c).2.agents
    cases hr : resolveInQueries qid c st.escalated_queries with
    | none => rw [resolve_query, hr]; exact hinv
    | some p => rw [resolve_query, hr]
                exact releaseAgent_inv p.1 st.agents hinv
  | updateStatus aid s c =>
    exact agentsInv_of_proj_eq (setAgentStatus_map_proj aid s c
      st.agents) hinv

/-- Every reachable roster satisfies the invariant. -/
theorem reachable_inv {st : FallbackState} (h : Reachable st) :
    AgentsInv st.agents := by
  induction h with
  | init t0 =>
    constructor
    · have hids : (initialState t0).agents.map HumanAgent.id =
        ["agent_1", "agent_2", "agent_3", "agent_4"] := rfl
      rw [hids]; decide
    · intro a ha
      have ha' : a ∈ initialize_agents t0 := ha
      simp only [initialize_agents, List.mem_cons,
        List.mem_singleton] at ha'
      rcases ha' with rfl | rfl | rfl | rfl | h0
      · exact ⟨by norm_num, by norm_num⟩
      · exact ⟨by norm_num, by norm_num⟩
      · exact ⟨by norm_num, by norm_num⟩
      · exact ⟨by norm_num, by norm_num⟩
      · simp at h0
  | step hr hs ih => exact step_inv hs ih

/-- Claim C5: in every reachable state — any finite sequence of
escalations, scheduler ticks, resolutions, and status updates starting
from the initial roster — every agent satisfies
`0 ≤ currentLoad ≤ maxLoad`: the scheduler only reserves capacity for
agents that pass the `currentLoad < maxLoad` filter, and release
decrements with a floor at 0. -/
theorem load_invariant (st : FallbackState) (h : Reachable st) :
    ∀ a ∈ st.agents,
      0 ≤ a.current_chats ∧ a.current_chats ≤ a.max_chats :=
  (reachable_inv h).2

/-- Claim C5 (witness): the invariant instantiated at the initial
state's first agent. -/
theorem load_invariant_witness :
    0 ≤ rosterAgent1.current_chats ∧
      rosterAgent1.current_chats ≤ rosterAgent1.max_chats :=
  load_invariant (initialState "t0") (Reachable.init "t0") rosterAgent1
    (by decide)

/-! ### Claim C6 -/

/-- A scheduler pass walks over non-pending queries without touching
them or the roster. -/
theorem assignPending_append_nonpending (c : String)
    (l l2 : List EscalatedQuery) (ags : List HumanAgent)
    (h : ∀ q ∈ l, q.status ≠ "pending") :
    assignPending c (l ++ l2) ags =
      (l ++ (assignPending c l2 ags).1, (assignPending c l2 ags).2) := by
  induction l with
  | nil => simp
  | cons q rest ih =>
    have hq : ¬ ((q.status == "pending") = true) := by
      simp only [beq_iff_eq]
      exact h q (List.mem_cons_self q rest)
    rw [List.cons_append, assignPending, if_neg hq,
      ih (fun p hp => h p (List.mem_cons_of_mem q hp))]
    rfl

/-- The resolve loop walks over queries with other ids untouched. -/
theorem resolveInQueries_append_fresh (qid c : String)
    (l l2 : List EscalatedQuery) (h : ∀ q ∈ l, q.id ≠ qid) :
    resolveInQueries qid c (l ++ l2) =
      (resolveInQueries qid c l2).map (fun p => (p.1, l ++ p.2)) := by
  induction l with
  | nil =>
    cases hr : resolveInQueries qid c l2 <;> simp [hr]
  | cons q rest ih =>
    have hq : ¬ ((q.id == qid) = true) := by
      simp only [beq_iff_eq]
      exact h q (List.mem_cons_self q rest)
    rw [List.cons_append, resolveInQueries, if_neg hq,
      ih (fun p hp => h p (List.mem_cons_of_mem q hp))]
    cases hr : resolveInQueries qid c l2 <;> simp [hr]

/-- Releasing the capacity just reserved for agent `a` restores every
agent's load (ids are distinct, loads nonnegative). -/
theorem release_after_inc (a : HumanAgent) (c : String)
    (l : List HumanAgent) (hnd : (l.map HumanAgent.id).Nodup)
    (ha : a ∈ l) (hload : ∀ b ∈ l, 0 ≤ b.current_chats) :
    (releaseAgent a.id (l.map
      (fun b => if b.id == a.id then reserveAgent b c else b))).map
      (fun b => (b.id, b.current_chats)) =
    l.map (fun b => (b.id, b.current_chats)) := by
  induction l with
  | nil => simp at ha
  | cons x xs ih =>
    simp only [List.map_cons] at hnd
    have hnd' := List.nodup_cons.mp hnd
    by_cases hx : (x.id == a.id) = true
    · rw [List.map_cons, if_pos hx, releaseAgent,
        if_pos (show ((reserveAgent x c).id == a.id) = true from hx)]
      rw [List.map_cons, List.map_cons]
      congr 1
      · have h0 := hload x (List.mem_cons_self x xs)
        show ((x.id, max 0 (x.current_chats + 1 - 1)) : String × ℤ) =
          (x.id, x.current_chats)
        rw [add_sub_cancel_right, max_eq_right h0]
      · rw [List.map_map]
        refine List.map_congr_left fun b hb => ?_
        have hbid : b.id ≠ x.id := by
          intro he
          exact hnd'.1 (he ▸ List.mem_map_of_mem HumanAgent.id hb)
        have hbneq : ¬ ((b.id == a.id) = true) := by
          simp only [beq_iff_eq]
          rw [← beq_iff_eq.mp hx]
          exact hbid
        show ((if b.id == a.id then reserveAgent b c else b).id,
          (if b.id == a.id then reserveAgent b c else b).current_chats) =
          (b.id, b.current_chats)
        rw [if_neg hbneq]
    · rw [List.map_cons, if_neg hx, releaseAgent, if_neg hx]
      have hax : a ∈ xs := by
        rcases List.mem_cons.mp ha with rfl | h1
        · exact absurd (beq_self_eq_true a.id) hx
        · exact h1
      rw [List.map_cons, List.map_cons,
        ih hnd'.2 hax (fun b hb => hload b (List.mem_cons_of_mem x hb))]

/-- Unfolding `resolve_query` when the query-side loop succeeds. -/
theorem resolve_query_eq_of_some (st : FallbackState)
    (qid c aid : String) (qs : List EscalatedQuery)
    (h : resolveInQueries qid c st.escalated_queries = some (aid, qs)) :
    resolve_query st qid c =
      (true, ⟨releaseAgent aid st.agents, qs⟩) := by
  simp only [resolve_query, h]

/-- Claim C6: round-trip.  On any state whose queue holds no other
pending item, whose roster has distinct ids and nonnegative loads, and
whose queue does not already contain the new id: enqueueing one item,
running one scheduler tick (which assigns it to the matcher's pick
`a`), then resolving the returned id (i) leaves, after the tick,
exactly the agents carrying `a`'s id — a single agent, by distinctness
— with `currentLoad` incremented and every other load unchanged,
(ii) returns `true` from the resolve, (iii) restores every agent's
load to its pre-assignment value, and (iv) leaves the item with
status Resolved. -/
theorem enqueue_assign_resolve_roundtrip
    (st : FallbackState) (c txt : String) (r : EscalationReason)
    (p : Int) (lang cs ci ci2 ci3 : String) (a : HumanAgent)
    (hnodup : (st.agents.map HumanAgent.id).Nodup)
    (hload : ∀ b ∈ st.agents, 0 ≤ b.current_chats)
    (hnp : ∀ q ∈ st.escalated_queries, q.status ≠ "pending")
    (hfresh : ∀ q ∈ st.escalated_queries, q.id ≠ mkQueryId cs)
    (hfind : find_best_agent st.agents (newEscalation c txt r p cs ci) =
      some a) :
    (assign_pending_queries (escalate_query st c txt r p lang cs ci).2
        ci2).agents.map (fun b => (b.id, b.current_chats)) =
      st.agents.map (fun b =>
        (b.id, if b.id = a.id then b.current_chats + 1
          else b.current_chats)) ∧
    (resolve_query
        (assign_pending_queries (escalate_query st c txt r p lang cs ci).2
          ci2)
        (escalate_query st c txt r p lang cs ci).1 ci3).1 = true ∧
    (resolve_query
        (assign_pending_queries (escalate_query st c txt r p lang cs ci).2
          ci2)
        (escalate_query st c txt r p lang cs ci).1 ci3).2.agents.map
        (fun b => (b.id, b.current_chats)) =
      st.agents.map (fun b => (b.id, b.current_chats)) ∧
    ∃ q' ∈ (resolve_query
        (assign_pending_queries (escalate_query st c txt r p lang cs ci).2
          ci2)
        (escalate_query st c txt r p lang cs ci).1
        ci3).2.escalated_queries,
      q'.id = (escalate_query st c txt r p lang cs ci).1 ∧
      q'.status = "resolved" := by
  have hmem : a ∈ st.agents :=
    (List.mem_filter.mp
      (find_best_agent_mem_filter st.agents _ a hfind)).1
  have htick : assignPending ci2
      (st.escalated_queries ++ [newEscalation c txt r p cs ci])
      st.agents =
      (st.escalated_queries ++
        [markAssigned (newEscalation c txt r p cs ci) a.id ci2],
       st.agents.map
        (fun b => if b.id == a.id then reserveAgent b ci2 else b)) := by
    rw [assignPending_append_nonpending ci2 _ _ _ hnp]
    have h1 : assignPending ci2 [newEscalation c txt r p cs ci]
        st.agents =
        ([markAssigned (newEscalation c txt r p cs ci) a.id ci2],
         st.agents.map
          (fun b => if b.id == a.id then reserveAgent b ci2 else b)) := by
      rw [assignPending,
        if_pos (show ((newEscalation c txt r p cs ci).status ==
          "pending") = true from rfl), hfind]
      rfl
    rw [h1]
  have hst2 : assign_pending_queries
      (escalate_query st c txt r p lang cs ci).2 ci2 =
      ⟨st.agents.map
        (fun b => if b.id == a.id then reserveAgent b ci2 else b),
       st.escalated_queries ++
        [markAssigned (newEscalation c txt r p cs ci) a.id ci2]⟩ := by
    show ({ agents :=
              (assignPending ci2
                (st.escalated_queries ++ [newEscalation c txt r p cs ci])
                st.agents).2,
            escalated_queries :=
              (assignPending ci2
                (st.escalated_queries ++ [newEscalation c txt r p cs ci])
                st.agents).1 } : FallbackState) = _
    rw [htick]
  have hr1 : resolveInQueries (mkQueryId cs) ci3
      (st.escalated_queries ++
        [markAssigned (newEscalation c txt r p cs ci) a.id ci2]) =
      some (a.id, st.escalated_queries ++
        [{ markAssigned (newEscalation c txt r p cs ci) a.id ci2 with
            status := "resolved", resolved_time := ci3 }]) := by
    rw [resolveInQueries_append_fresh _ _ _ _ hfresh]
    rw [resolveInQueries,
      if_pos (show ((markAssigned (newEscalation c txt r p cs ci) a.id
        ci2).id == mkQueryId cs) = true from
          beq_self_eq_true (mkQueryId cs))]
    rfl
  have hres : resolve_query
      (⟨st.agents.map
        (fun b => if b.id == a.id then reserveAgent b ci2 else b),
       st.escalated_queries ++
        [markAssigned (newEscalation c txt r p cs ci) a.id ci2]⟩ :
        FallbackState) (mkQueryId cs) ci3 =
      (true,
       ⟨releaseAgent a.id (st.agents.map
          (fun b => if b.id == a.id then reserveAgent b ci2 else b)),
        st.escalated_queries ++
          [{ markAssigned (newEscalation c txt r p cs ci) a.id ci2 with
              status := "resolved", resolved_time := ci3 }]⟩) :=
    resolve_query_eq_of_some _ _ _ _ _ hr1
  have hqid : (escalate_query st c txt r p lang cs ci).1 =
    mkQueryId cs := rfl
  refine ⟨?_, ?_, ?_, ?_⟩
  · rw [hst2]
    show (st.agents.map
      (fun b => if b.id == a.id then reserveAgent b ci2 else b)).map
        (fun b => (b.id, b.current_chats)) = _
    rw [List.map_map]
    refine List.map_congr_left fun b _ => ?_
    show ((if b.id == a.id then reserveAgent b ci2 else b).id,
      (if b.id == a.id then reserveAgent b ci2 else b).current_chats) =
      (b.id, if b.id = a.id then b.current_chats + 1
        else b.current_chats)
    by_cases hc : b.id = a.id
    · rw [if_pos (beq_iff_eq.mpr hc), if_pos hc]; rfl
    · rw [if_neg (by simpa using hc), if_neg hc]
  · rw [hqid, hst2, hres]
  · rw [hqid, hst2, hres]
    exact release_after_inc a ci2 st.agents hnodup hmem hload
  · rw [hqid, hst2, hres]
    exact ⟨{ markAssigned (newEscalation c txt r p cs ci) a.id ci2 with
        status := "resolved", resolved_time := ci3 },
      List.mem_append_right _ (List.mem_singleton_self _), rfl, rfl⟩

/-- Claim C6 (witness): the round-trip on the fresh system — an
emergency escalation is matched to the fourth roster agent, assigned by
the tick, and resolved, restoring all loads. -/
theorem roundtrip_witness :
    (assign_pending_queries (escalate_query (initialState "t0") "cust"
        "roadside assistance" .emergency 5 "en" "20250101120000"
        "t1").2 "t2").agents.map (fun b => (b.id, b.current_chats)) =
      (initialState "t0").agents.map (fun b =>
        (b.id, if b.id = wAgent4.id then b.current_chats + 1
          else b.current_chats)) ∧
    (resolve_query (assign_pending_queries (escalate_query
        (initialState "t0") "cust" "roadside assistance" .emergency 5
        "en" "20250101120000" "t1").2 "t2")
        (escalate_query (initialState "t0") "cust" "roadside assistance"
          .emergency 5 "en" "20250101120000" "t1").1 "t3").1 = true ∧
    (resolve_query (assign_pending_queries (escalate_query
        (initialState "t0") "cust" "roadside assistance" .emergency 5
        "en" "20250101120000" "t1").2 "t2")
        (escalate_query (initialState "t0") "cust" "roadside assistance"
          .emergency 5 "en" "20250101120000" "t1").1
        "t3").2.agents.map (fun b => (b.id, b.current_chats)) =
      (initialState "t0").agents.map (fun b => (b.id, b.current_chats)) ∧
    ∃ q' ∈ (resolve_query (assign_pending_queries (escalate_query
        (initialState "t0") "cust" "roadside assistance" .emergency 5
        "en" "20250101120000" "t1").2 "t2")
        (escalate_query (initialState "t0") "cust" "roadside assistance"
          .emergency 5 "en" "20250101120000" "t1").1
        "t3").2.escalated_queries,
      q'.id = (escalate_query (initialState "t0") "cust"
        "roadside assistance" .emergency 5 "en" "20250101120000"
        "t1").1 ∧
      q'.status = "resolved" := by
  have hfindW : find_best_agent (initialState "t0").agents
      (newEscalation "cust" "roadside assistance" .emergency 5
        "20250101120000" "t1") = some wAgent4 := by
    simp [find_best_agent, availableAgents, isAvailableWithCapacity,
      bestStep, agentScore, initialState, initialize_agents, wAgent4,
      newEscalation, EscalationReason.value, splitStr, splitChar]
    norm_num
  exact enqueue_assign_resolve_roundtrip (initialState "t0") "cust"
    "roadside assistance" .emergency 5 "en" "20250101120000" "t1" "t2"
    "t3" wAgent4 (by decide) (by decide) (by decide) (by decide) hfindW

end HumanFallback
